import Mathlib

/-!
Verification development for the pipewire JACK compatibility layer
(src/pipewire-jack.c).  The sections below give a shallow embedding of
the MIDI event codec (struct midi_buffer, jack_midi_event_reserve and
friends), the per-mix buffer reuse queue, the port pool, the timebase
owner slot, the real-time cycle engine entry points, and the registry
object cache, together with theorems settling the specified properties.
Machine integers are modelled as Nat with explicit truncation where the
C code narrows (the uint16 time and size fields of struct midi_event).
-/

namespace PipewireJack

/-!
Section: MIDI event codec.

Layout facts taken from the C source: struct midi_buffer has six
32-bit fields, so sizeof(struct midi_buffer) = 24; struct midi_event is
two uint16 fields plus a 4-byte union, so sizeof(struct midi_event) = 8.
The union holds either byte_offset (heap events) or inline_data
(events of at most MIDI_INLINE_MAX = 4 bytes).  An event records its
payload bytes; for heap events byte_offset is the absolute byte offset
of the payload inside the shared buffer, inline events keep the bytes
in the header (modelled as byte_offset = none).
-/

def MIDI_INLINE_MAX : Nat := 4

def sizeof_midi_buffer : Nat := 24

def sizeof_midi_event : Nat := 8

/-- Truncation modulus for the uint16 fields of struct midi_event. -/
def U16 : Nat := 65536

structure midi_event where
  time : Nat
  size : Nat
  byte_offset : Option Nat
  data : List Nat
  deriving Repr, DecidableEq

structure midi_buffer where
  buffer_size : Nat
  nframes : Nat
  write_pos : Nat
  events : List midi_event
  lost_events : Nat
  deriving Repr, DecidableEq

/-- Buffer with no events, as produced by init or jack_midi_clear_buffer. -/
def emptyMidiBuffer (bufferSize nframes : Nat) : midi_buffer :=
  { buffer_size := bufferSize, nframes := nframes, write_pos := 0,
    events := [], lost_events := 0 }

/-- jack_midi_clear_buffer: resets event count, heap write position and the
lost-event counter. -/
def jack_midi_clear_buffer (mb : midi_buffer) : midi_buffer :=
  { mb with events := [], write_pos := 0, lost_events := 0 }

/-- jack_midi_get_event_count. -/
def jack_midi_get_event_count (mb : midi_buffer) : Nat :=
  mb.events.length

/-- Time of events[event_count - 1], the check target of the monotonicity
test in jack_midi_event_reserve (only consulted when events is nonempty). -/
def lastEventTime (mb : midi_buffer) : Nat :=
  ((mb.events.getLast?).map midi_event.time).getD 0

/-- jack_midi_max_event_size: free room for one more event, counting the
header needed for the next event; if less than MIDI_INLINE_MAX remains the
inline capacity is still available. -/
def jack_midi_max_event_size (mb : midi_buffer) : Nat :=
  let used_size := sizeof_midi_buffer + mb.write_pos
      + (mb.events.length + 1) * sizeof_midi_event
  if used_size > mb.buffer_size then 0
  else if mb.buffer_size - used_size < MIDI_INLINE_MAX then MIDI_INLINE_MAX
  else mb.buffer_size - used_size

/-- Shared failure path of jack_midi_event_reserve: count the lost event and
return no pointer. -/
def midiReserveFailed (mb : midi_buffer) : Option Nat × midi_buffer :=
  (none, { mb with lost_events := mb.lost_events + 1 })

/-- jack_midi_event_reserve.  The returned Nat is the byte offset inside the
buffer where the payload will be written (the C function returns the
corresponding pointer): for inline events it points into the union field of
the new header (header start + 4); for heap events it is byte_offset =
buffer_size - 1 - write_pos computed after write_pos grew by data_size.
The stored time and size narrow to uint16. -/
def jack_midi_event_reserve (mb : midi_buffer) (time : Nat) (data_size : Nat) :
    Option Nat × midi_buffer :=
  if time ≥ mb.nframes then midiReserveFailed mb
  else if mb.events ≠ [] ∧ time < lastEventTime mb then midiReserveFailed mb
  else if data_size = 0 then midiReserveFailed mb
  else if jack_midi_max_event_size mb < data_size then midiReserveFailed mb
  else if data_size ≤ MIDI_INLINE_MAX then
    let ptr := sizeof_midi_buffer + mb.events.length * sizeof_midi_event + 4
    (some ptr,
      { mb with events := mb.events ++
          [{ time := time % U16, size := data_size % U16,
             byte_offset := none, data := [] }] })
  else
    let wp := mb.write_pos + data_size
    let off := mb.buffer_size - 1 - wp
    (some off,
      { mb with
          write_pos := wp
          events := mb.events ++
            [{ time := time % U16, size := data_size % U16,
               byte_offset := some off, data := [] }] })

/-- Models the memcpy in jack_midi_event_write: the payload bytes are placed
in the region just reserved, which belongs to the event appended last.
This is an abstraction that keeps the payload out of band: it does not
capture that at exact heap fit the region starts one byte inside the
header (the C10 off-by-one); the byte-accurate model further below does. -/
def fillLastEvent (mb : midi_buffer) (data : List Nat) : midi_buffer :=
  { mb with events :=
      mb.events.dropLast ++
        ((mb.events.getLast?).elim [] fun e => [{ e with data := data }]) }

/-- Linux errno value returned by jack_midi_event_write on failure. -/
def ENOBUFS : Int := 105

/-- jack_midi_event_write: reserve, then memcpy the payload on success.
Returns 0 on success and the (positive) errno value ENOBUFS on failure. -/
def jack_midi_event_write (mb : midi_buffer) (time : Nat) (data : List Nat) :
    Int × midi_buffer :=
  match jack_midi_event_reserve mb time data.length with
  | (some _, mb2) => (0, fillLastEvent mb2 data)
  | (none, mb2) => (ENOBUFS, mb2)

/-- jack_midi_get_lost_event_count. -/
def jack_midi_get_lost_event_count (mb : midi_buffer) : Nat :=
  mb.lost_events

/-- Bytes visible through midi_event_data for one event: the stored size
field bounds what a reader sees.  Like fillLastEvent this reads the out of
band payload and therefore cannot see the header corruption of an exact
heap fit; the byte-accurate model further below reads the buffer bytes at
byte_offset as the C code does. -/
def midi_event_data (e : midi_event) : List Nat :=
  e.data.take e.size

/-!
Section: wire format (struct spa_pod_control) and the two codec directions
convert_from_midi and convert_to_midi.
-/

def SPA_CONTROL_Midi : Nat := 2

structure spa_pod_control where
  offset : Nat
  ctype : Nat
  bytes : List Nat
  deriving Repr, DecidableEq

/-- convert_from_midi: one wire control per stored event, in stored order,
tagged SPA_CONTROL_Midi, carrying the event time and the payload bytes read
back through jack_midi_event_get.  (The enclosing pod sequence framing and
the destination pod size are not modelled.) -/
def convert_from_midi (mb : midi_buffer) : List spa_pod_control :=
  mb.events.map fun e =>
    { offset := e.time, ctype := SPA_CONTROL_Midi, bytes := midi_event_data e }

/-- Selection step of the merge loop in convert_to_midi: scan all sequence
cursors and keep the first one whose current control has a strictly smaller
offset than the best so far (so on equal offsets the earlier sequence wins);
return the chosen control together with the cursor state where only the
chosen sequence advanced. -/
def pickStep :
    List (List spa_pod_control) →
      Option (spa_pod_control × List (List spa_pod_control))
  | [] => none
  | [] :: rest =>
    match pickStep rest with
    | none => none
    | some (c, rest2) => some (c, [] :: rest2)
  | (x :: xs) :: rest =>
    match pickStep rest with
    | none => some (x, xs :: rest)
    | some (c, rest2) =>
      if c.offset < x.offset then some (c, (x :: xs) :: rest2)
      else some (x, xs :: rest)

def totalLen (seqs : List (List spa_pod_control)) : Nat :=
  (seqs.map List.length).sum

theorem pickStep_totalLen :
    ∀ seqs c seqs2, pickStep seqs = some (c, seqs2) →
      totalLen seqs = totalLen seqs2 + 1 := by
  intro seqs
  induction seqs with
  | nil => intro c s2 h; simp [pickStep] at h
  | cons hd rest ih =>
    intro c s2 h
    cases hd with
    | nil =>
      simp only [pickStep] at h
      cases hr : pickStep rest with
      | none => rw [hr] at h; simp at h
      | some p =>
        rw [hr] at h
        obtain ⟨c0, rest2⟩ := p
        simp at h
        obtain ⟨hc, hs⟩ := h
        subst hc hs
        have := ih c0 rest2 hr
        simp [totalLen] at this ⊢
        omega
    | cons x xs =>
      simp only [pickStep] at h
      cases hr : pickStep rest with
      | none =>
        rw [hr] at h
        simp at h
        obtain ⟨hc, hs⟩ := h
        subst hc hs
        simp [totalLen]
        omega
      | some p =>
        rw [hr] at h
        obtain ⟨c0, rest2⟩ := p
        by_cases hlt : c0.offset < x.offset
        · simp [hlt] at h
          obtain ⟨hc, hs⟩ := h
          subst hc hs
          have := ih c0 rest2 hr
          simp [totalLen] at this ⊢
          omega
        · simp [hlt] at h
          obtain ⟨hc, hs⟩ := h
          subst hc hs
          simp [totalLen]
          omega

/-- convert_to_midi: repeat the selection step until all cursors are
exhausted; each selected control of type SPA_CONTROL_Midi is appended to
the destination port buffer through jack_midi_event_write (whose return
value the C loop ignores), other control types are skipped. -/
def convert_to_midi (seqs : List (List spa_pod_control)) (mb : midi_buffer) :
    midi_buffer :=
  match h : pickStep seqs with
  | none => mb
  | some (c, seqs2) =>
    convert_to_midi seqs2
      (if c.ctype = SPA_CONTROL_Midi then
        (jack_midi_event_write mb c.offset c.bytes).2
      else mb)
termination_by totalLen seqs
decreasing_by
  have := pickStep_totalLen seqs c seqs2 h
  omega

/-- Order in which the merge loop of convert_to_midi visits the wire
controls (the destination write order). -/
def mergeOrder (seqs : List (List spa_pod_control)) : List spa_pod_control :=
  match h : pickStep seqs with
  | none => []
  | some (c, seqs2) => c :: mergeOrder seqs2
termination_by totalLen seqs
decreasing_by
  have := pickStep_totalLen seqs c seqs2 h
  omega

theorem convert_to_midi_none {seqs : List (List spa_pod_control)}
    (h : pickStep seqs = none) (mb : midi_buffer) :
    convert_to_midi seqs mb = mb := by
  rw [convert_to_midi, h]

theorem convert_to_midi_some {seqs : List (List spa_pod_control)}
    {c : spa_pod_control} {seqs2 : List (List spa_pod_control)}
    (h : pickStep seqs = some (c, seqs2)) (mb : midi_buffer) :
    convert_to_midi seqs mb =
      convert_to_midi seqs2
        (if c.ctype = SPA_CONTROL_Midi then
          (jack_midi_event_write mb c.offset c.bytes).2
        else mb) := by
  rw [convert_to_midi, h]

theorem mergeOrder_none {seqs : List (List spa_pod_control)}
    (h : pickStep seqs = none) : mergeOrder seqs = [] := by
  rw [mergeOrder, h]

theorem mergeOrder_some {seqs : List (List spa_pod_control)}
    {c : spa_pod_control} {seqs2 : List (List spa_pod_control)}
    (h : pickStep seqs = some (c, seqs2)) :
    mergeOrder seqs = c :: mergeOrder seqs2 := by
  rw [mergeOrder, h]

end PipewireJack

namespace PipewireJack

/-!
Section: characterization lemmas for jack_midi_event_reserve and
jack_midi_event_write.
-/

theorem reserve_fail_iff (mb : midi_buffer) (t s : Nat) :
    (jack_midi_event_reserve mb t s).1 = none ↔
      t ≥ mb.nframes ∨ (mb.events ≠ [] ∧ t < lastEventTime mb) ∨ s = 0 ∨
        jack_midi_max_event_size mb < s := by
  unfold jack_midi_event_reserve
  split_ifs with h1 h2 h3 h4 h5 <;> simp_all [midiReserveFailed]

theorem reserve_fail_lost (mb : midi_buffer) (t s : Nat)
    (h : (jack_midi_event_reserve mb t s).1 = none) :
    (jack_midi_event_reserve mb t s).2.lost_events = mb.lost_events + 1 := by
  unfold jack_midi_event_reserve at *
  split_ifs at * <;> simp_all [midiReserveFailed]

theorem reserve_success_shape (mb : midi_buffer) (t s : Nat)
    (h : (jack_midi_event_reserve mb t s).1 ≠ none) :
    ∃ off, (jack_midi_event_reserve mb t s).2.events =
        mb.events ++
          [{ time := t % U16, size := s % U16, byte_offset := off, data := [] }] ∧
      (jack_midi_event_reserve mb t s).2.lost_events = mb.lost_events := by
  unfold jack_midi_event_reserve at *
  split_ifs at * with h1 h2 h3 h4 h5
  · simp [midiReserveFailed] at h
  · simp [midiReserveFailed] at h
  · simp [midiReserveFailed] at h
  · simp [midiReserveFailed] at h
  · exact ⟨none, by simp, rfl⟩
  · exact ⟨some (mb.buffer_size - 1 - (mb.write_pos + s)), by simp, rfl⟩

end PipewireJack

namespace PipewireJack

/-- Claim C1, counterexample.  On an empty cleared buffer of 34 bytes the
remaining capacity (buffer size minus the 24-byte struct, the heap usage 0
and the 8-byte header needed for the next event) is 2, yet reserving a
3-byte event succeeds with no lost event, because payloads of at most
MIDI_INLINE_MAX = 4 bytes are stored inline in the header: the claim that
reservation fails whenever size exceeds remaining capacity by one byte is
false. -/
theorem C1_counterexample :
    34 - (sizeof_midi_buffer + 0 + (0 + 1) * sizeof_midi_event) = 2 ∧
    (jack_midi_event_reserve (emptyMidiBuffer 34 8) 0 3).1.isSome = true ∧
    (jack_midi_event_reserve (emptyMidiBuffer 34 8) 0 3).2.lost_events = 0 := by
  decide

/-- Claim C1 (amended): jack_midi_event_reserve fails exactly when time is
at or beyond the period length nframes, or time is below the last stored
event time while events are present, or size is zero, or size exceeds
jack_midi_max_event_size, which equals the remaining capacity only when
that capacity is at least MIDI_INLINE_MAX and is MIDI_INLINE_MAX (inline
storage) when the headers still fit but less remains; every failure
increments the lost-event counter by one and returns no pointer, success
leaves the counter unchanged; when the remaining capacity is at least
MIDI_INLINE_MAX, a reservation of exactly that capacity succeeds and one
byte more fails. -/
theorem C1_reserve_spec (mb : midi_buffer) (t s : Nat) :
    ((jack_midi_event_reserve mb t s).1 = none ↔
      t ≥ mb.nframes ∨ (mb.events ≠ [] ∧ t < lastEventTime mb) ∨ s = 0 ∨
        jack_midi_max_event_size mb < s) ∧
    ((jack_midi_event_reserve mb t s).1 = none →
      (jack_midi_event_reserve mb t s).2.lost_events = mb.lost_events + 1) ∧
    ((jack_midi_event_reserve mb t s).1 ≠ none →
      (jack_midi_event_reserve mb t s).2.lost_events = mb.lost_events) ∧
    (sizeof_midi_buffer + mb.write_pos + (mb.events.length + 1) * sizeof_midi_event
        + MIDI_INLINE_MAX ≤ mb.buffer_size →
      t < mb.nframes →
      (mb.events = [] ∨ lastEventTime mb ≤ t) →
      (jack_midi_event_reserve mb t
          (mb.buffer_size - (sizeof_midi_buffer + mb.write_pos +
            (mb.events.length + 1) * sizeof_midi_event))).1 ≠ none ∧
      (jack_midi_event_reserve mb t
          (mb.buffer_size - (sizeof_midi_buffer + mb.write_pos +
            (mb.events.length + 1) * sizeof_midi_event) + 1)).1 = none) := by
  refine ⟨reserve_fail_iff mb t s, reserve_fail_lost mb t s, ?_, ?_⟩
  · intro h
    obtain ⟨off, _, hlost⟩ := reserve_success_shape mb t s h
    exact hlost
  · intro hcap ht hmono
    have hmax : jack_midi_max_event_size mb =
        mb.buffer_size - (sizeof_midi_buffer + mb.write_pos +
          (mb.events.length + 1) * sizeof_midi_event) := by
      unfold jack_midi_max_event_size
      simp only [sizeof_midi_buffer, sizeof_midi_event, MIDI_INLINE_MAX] at *
      split_ifs <;> omega
    constructor
    · rw [Ne, reserve_fail_iff]
      push_neg
      refine ⟨by omega, ?_, ?_, ?_⟩
      · intro hne
        rcases hmono with h | h
        · exact absurd h hne
        · omega
      · simp only [sizeof_midi_buffer, sizeof_midi_event, MIDI_INLINE_MAX] at *
        omega
      · rw [hmax]
    · rw [reserve_fail_iff]
      right; right; right
      rw [hmax]
      simp only [sizeof_midi_buffer, sizeof_midi_event, MIDI_INLINE_MAX] at *
      omega

/-- Claim C1 witness: the amended specification instantiated on a cleared
100-byte buffer with 8 frames, where the remaining capacity is 68: a 68-byte
reservation succeeds and a 69-byte reservation fails. -/
theorem C1_reserve_spec_witness :
    (jack_midi_event_reserve (emptyMidiBuffer 100 8) 0 68).1 ≠ none ∧
    (jack_midi_event_reserve (emptyMidiBuffer 100 8) 0 69).1 = none :=
  (C1_reserve_spec (emptyMidiBuffer 100 8) 0 5).2.2.2 (by decide) (by decide)
    (Or.inl (by decide))

end PipewireJack

namespace PipewireJack

/-- Claim C8, counterexample.  A failing write (time 8 equals nframes 8, so
the reservation is rejected) makes jack_midi_event_write return the plain
positive errno value ENOBUFS = 105, not a negative error code as claimed. -/
theorem C8_counterexample :
    (jack_midi_event_write (emptyMidiBuffer 34 8) 8 [1]).1 = 105 ∧
    ¬ (jack_midi_event_write (emptyMidiBuffer 34 8) 8 [1]).1 < 0 := by
  decide

/-- Claim C8 (amended): when the underlying reservation succeeds,
jack_midi_event_write returns 0 and copies exactly the payload bytes into
the reserved event, leaving the lost-event counter unchanged; when the
reservation fails it returns the positive errno value ENOBUFS (105), an
ordinary non-zero error return rather than process termination, and the
event is counted as lost. -/
theorem C8_write_spec (mb : midi_buffer) (t : Nat) (d : List Nat) :
    ((jack_midi_event_reserve mb t d.length).1 ≠ none →
      (jack_midi_event_write mb t d).1 = 0 ∧
      (jack_midi_event_write mb t d).2.events.map midi_event.data =
        mb.events.map midi_event.data ++ [d] ∧
      (jack_midi_event_write mb t d).2.lost_events = mb.lost_events) ∧
    ((jack_midi_event_reserve mb t d.length).1 = none →
      (jack_midi_event_write mb t d).1 = ENOBUFS ∧
      0 < (jack_midi_event_write mb t d).1 ∧
      (jack_midi_event_write mb t d).2.lost_events = mb.lost_events + 1) := by
  constructor
  · intro h
    obtain ⟨off, hev, hlost⟩ := reserve_success_shape mb t d.length h
    rcases hr : jack_midi_event_reserve mb t d.length with ⟨r1, mb2⟩
    rw [hr] at h hev hlost
    cases r1 with
    | none => exact absurd rfl h
    | some p =>
      refine ⟨by simp [jack_midi_event_write, hr], ?_, ?_⟩
      · simp only [jack_midi_event_write, hr]
        simp only [fillLastEvent]
        rw [hev]
        simp [List.dropLast_concat, List.getLast?_concat]
      · simpa [jack_midi_event_write, hr, fillLastEvent] using hlost
  · intro h
    have hlost := reserve_fail_lost mb t d.length h
    rcases hr : jack_midi_event_reserve mb t d.length with ⟨r1, mb2⟩
    rw [hr] at h hlost
    cases r1 with
    | some p => simp at h
    | none =>
      refine ⟨by simp [jack_midi_event_write, hr], ?_, by simpa [jack_midi_event_write, hr] using hlost⟩
      simp [jack_midi_event_write, hr, ENOBUFS]

/-- Claim C8 witness: a successful 2-byte write into an empty 64-byte
buffer returns 0, stores exactly the payload, and loses nothing; the write
at time nframes fails with ENOBUFS = 105 > 0 and is counted lost. -/
theorem C8_write_spec_witness :
    ((jack_midi_event_write (emptyMidiBuffer 64 8) 3 [9, 7]).1 = 0 ∧
      (jack_midi_event_write (emptyMidiBuffer 64 8) 3 [9, 7]).2.events.map
          midi_event.data = [] ++ [[9, 7]] ∧
      (jack_midi_event_write (emptyMidiBuffer 64 8) 3 [9, 7]).2.lost_events = 0) ∧
    ((jack_midi_event_write (emptyMidiBuffer 64 8) 8 [9, 7]).1 = ENOBUFS ∧
      0 < (jack_midi_event_write (emptyMidiBuffer 64 8) 8 [9, 7]).1 ∧
      (jack_midi_event_write (emptyMidiBuffer 64 8) 8 [9, 7]).2.lost_events = 0 + 1) :=
  ⟨(C8_write_spec (emptyMidiBuffer 64 8) 3 [9, 7]).1 (by decide),
   (C8_write_spec (emptyMidiBuffer 64 8) 8 [9, 7]).2 (by decide)⟩

/-- Claim C10: evaluation of the heap allocator at the failing input.  On a
cleared 42-byte buffer a 10-byte event exactly fills the remaining capacity
(42 - 24 - 8 = 10), the reservation succeeds, and the returned payload
region starts at byte offset 31 = 42 - 1 - 10 while the header region
(struct midi_buffer plus one event header) occupies bytes 0 to 31
inclusive: the first payload byte overlaps the last header byte, so the
claimed disjointness fails at exact fit (and buffer byte 41 is never
used). -/
theorem C10_header_overlap :
    (jack_midi_event_reserve (emptyMidiBuffer 42 1) 0 10).1 = some 31 ∧
    sizeof_midi_buffer +
      (jack_midi_event_reserve (emptyMidiBuffer 42 1) 0 10).2.events.length *
        sizeof_midi_event = 32 ∧
    31 < 32 := by
  decide

end PipewireJack


namespace PipewireJack

/-!
Section: properties of the merge loop of convert_to_midi.
-/

theorem pickStep_none :
    ∀ seqs, pickStep seqs = none → ∀ s ∈ seqs, s = [] := by
  intro seqs
  induction seqs with
  | nil => intro _ s hs; simp at hs
  | cons hd rest ih =>
    intro h s hs
    cases hd with
    | nil =>
      simp only [pickStep] at h
      cases hr : pickStep rest with
      | none =>
        rcases List.mem_cons.mp hs with he | hm
        · exact he
        · exact ih hr s hm
      | some p => rw [hr] at h; obtain ⟨c, r⟩ := p; simp at h
    | cons y ys =>
      simp only [pickStep] at h
      cases hr : pickStep rest with
      | none => rw [hr] at h; simp at h
      | some p =>
        rw [hr] at h
        obtain ⟨c, r⟩ := p
        by_cases hlt : c.offset < y.offset <;> simp [hlt] at h

theorem pickStep_min :
    ∀ seqs c seqs2, pickStep seqs = some (c, seqs2) →
      ∀ s ∈ seqs, ∀ x xs, s = x :: xs → c.offset ≤ x.offset := by
  intro seqs
  induction seqs with
  | nil => intro c s2 h; simp [pickStep] at h
  | cons hd rest ih =>
    intro c s2 h s hs x xs hsx
    cases hd with
    | nil =>
      simp only [pickStep] at h
      cases hr : pickStep rest with
      | none => rw [hr] at h; simp at h
      | some p =>
        rw [hr] at h
        obtain ⟨c0, rest2⟩ := p
        simp at h
        obtain ⟨hc, _⟩ := h
        subst hc
        rcases List.mem_cons.mp hs with hexact | hmem
        · subst hexact; simp at hsx
        · exact ih c0 rest2 hr s hmem x xs hsx
    | cons y ys =>
      simp only [pickStep] at h
      cases hr : pickStep rest with
      | none =>
        rw [hr] at h
        simp at h
        obtain ⟨hc, _⟩ := h
        subst hc
        rcases List.mem_cons.mp hs with hexact | hmem
        · rw [hexact] at hsx
          cases hsx
          exact le_refl _
        · have := pickStep_none rest hr s hmem
          rw [this] at hsx
          cases hsx
      | some p =>
        rw [hr] at h
        obtain ⟨c0, rest2⟩ := p
        by_cases hlt : c0.offset < y.offset
        · simp [hlt] at h
          obtain ⟨hc, _⟩ := h
          subst hc
          rcases List.mem_cons.mp hs with hexact | hmem
          · rw [hexact] at hsx
            cases hsx
            exact le_of_lt hlt
          · exact ih c0 rest2 hr s hmem x xs hsx
        · simp [hlt] at h
          obtain ⟨hc, _⟩ := h
          subst hc
          rcases List.mem_cons.mp hs with hexact | hmem
          · rw [hexact] at hsx
            cases hsx
            exact le_refl _
          · have := ih c0 rest2 hr s hmem x xs hsx
            omega

theorem pickStep_head :
    ∀ seqs c seqs2, pickStep seqs = some (c, seqs2) →
      ∃ s ∈ seqs, ∃ xs, s = c :: xs := by
  intro seqs
  induction seqs with
  | nil => intro c s2 h; simp [pickStep] at h
  | cons hd rest ih =>
    intro c s2 h
    cases hd with
    | nil =>
      simp only [pickStep] at h
      cases hr : pickStep rest with
      | none => rw [hr] at h; simp at h
      | some p =>
        rw [hr] at h
        obtain ⟨c0, rest2⟩ := p
        simp at h
        obtain ⟨hc, _⟩ := h
        subst hc
        obtain ⟨s, hs, xs, hxs⟩ := ih c0 rest2 hr
        exact ⟨s, List.mem_cons_of_mem _ hs, xs, hxs⟩
    | cons y ys =>
      simp only [pickStep] at h
      cases hr : pickStep rest with
      | none =>
        rw [hr] at h
        simp at h
        obtain ⟨hc, _⟩ := h
        subst hc
        exact ⟨y :: ys, List.mem_cons_self _ _, ys, rfl⟩
      | some p =>
        rw [hr] at h
        obtain ⟨c0, rest2⟩ := p
        by_cases hlt : c0.offset < y.offset
        · simp [hlt] at h
          obtain ⟨hc, _⟩ := h
          subst hc
          obtain ⟨s, hs, xs, hxs⟩ := ih c0 rest2 hr
          exact ⟨s, List.mem_cons_of_mem _ hs, xs, hxs⟩
        · simp [hlt] at h
          obtain ⟨hc, _⟩ := h
          subst hc
          exact ⟨y :: ys, List.mem_cons_self _ _, ys, rfl⟩

theorem pickStep_after :
    ∀ seqs c seqs2, pickStep seqs = some (c, seqs2) →
      ∀ s ∈ seqs2, s ∈ seqs ∨ (c :: s) ∈ seqs := by
  intro seqs
  induction seqs with
  | nil => intro c s2 h; simp [pickStep] at h
  | cons hd rest ih =>
    intro c s2 h s hs
    cases hd with
    | nil =>
      simp only [pickStep] at h
      cases hr : pickStep rest with
      | none => rw [hr] at h; simp at h
      | some p =>
        rw [hr] at h
        obtain ⟨c0, rest2⟩ := p
        simp at h
        obtain ⟨hc, hs2⟩ := h
        subst hc
        rw [← hs2] at hs
        rcases List.mem_cons.mp hs with he | hm
        · subst he; exact Or.inl (List.mem_cons_self _ _)
        · rcases ih c0 rest2 hr s hm with h1 | h1
          · exact Or.inl (List.mem_cons_of_mem _ h1)
          · exact Or.inr (List.mem_cons_of_mem _ h1)
    | cons y ys =>
      simp only [pickStep] at h
      cases hr : pickStep rest with
      | none =>
        rw [hr] at h
        simp at h
        obtain ⟨hc, hs2⟩ := h
        subst hc
        rw [← hs2] at hs
        rcases List.mem_cons.mp hs with he | hm
        · subst he; exact Or.inr (List.mem_cons_self _ _)
        · exact Or.inl (List.mem_cons_of_mem _ hm)
      | some p =>
        rw [hr] at h
        obtain ⟨c0, rest2⟩ := p
        by_cases hlt : c0.offset < y.offset
        · simp [hlt] at h
          obtain ⟨hc, hs2⟩ := h
          subst hc
          rw [← hs2] at hs
          rcases List.mem_cons.mp hs with he | hm
          · subst he; exact Or.inl (List.mem_cons_self _ _)
          · rcases ih c0 rest2 hr s hm with h1 | h1
            · exact Or.inl (List.mem_cons_of_mem _ h1)
            · exact Or.inr (List.mem_cons_of_mem _ h1)
        · simp [hlt] at h
          obtain ⟨hc, hs2⟩ := h
          subst hc
          rw [← hs2] at hs
          rcases List.mem_cons.mp hs with he | hm
          · subst he; exact Or.inr (List.mem_cons_self _ _)
          · exact Or.inl (List.mem_cons_of_mem _ hm)

end PipewireJack

namespace PipewireJack

/-- K-way merge correctness: if every incoming wire sequence is
nondecreasing in offset, the order in which the merge loop visits the
controls is nondecreasing in offset. -/
theorem mergeOrder_sorted :
    ∀ n seqs, totalLen seqs ≤ n →
      (∀ s ∈ seqs, List.Chain' (fun a b => a.offset ≤ b.offset) s) →
      List.Chain' (fun a b => a.offset ≤ b.offset) (mergeOrder seqs) := by
  intro n
  induction n with
  | zero =>
    intro seqs hlen _
    cases h : pickStep seqs with
    | none => rw [mergeOrder_none h]; exact List.chain'_nil
    | some p =>
      obtain ⟨c, s2⟩ := p
      have := pickStep_totalLen seqs c s2 h
      omega
  | succ n ih =>
    intro seqs hlen hs
    cases h : pickStep seqs with
    | none => rw [mergeOrder_none h]; exact List.chain'_nil
    | some p =>
      obtain ⟨c, s2⟩ := p
      rw [mergeOrder_some h]
      have hlen2 : totalLen s2 ≤ n := by
        have := pickStep_totalLen seqs c s2 h
        omega
      have hs2 : ∀ s ∈ s2, List.Chain' (fun a b => a.offset ≤ b.offset) s := by
        intro s hmem
        rcases pickStep_after seqs c s2 h s hmem with h1 | h1
        · exact hs s h1
        · simpa using (hs _ h1).tail
      have hrec := ih s2 hlen2 hs2
      rw [List.chain'_cons']
      refine ⟨?_, hrec⟩
      intro y hy
      cases h2 : pickStep s2 with
      | none => rw [mergeOrder_none h2] at hy; simp at hy
      | some p2 =>
        obtain ⟨c2, s3⟩ := p2
        rw [mergeOrder_some h2] at hy
        simp at hy
        subst hy
        obtain ⟨s, hsmem, xs, hxs⟩ := pickStep_head s2 c2 s3 h2
        rcases pickStep_after seqs c s2 h s hsmem with h1 | h1
        · exact pickStep_min seqs c s2 h s h1 c2 xs hxs
        · have hch := hs _ h1
          rw [hxs] at hch
          exact (List.chain'_cons.mp hch).1

end PipewireJack

namespace PipewireJack

/-- Computation of the specification example: merging the wire sequences
[(t=2,a)] and [(t=1,b),(t=2,c)] (payload bytes 10, 11, 12) into a fresh
port buffer stores (1,b), then (2,a), then (2,c): on the time tie the
EARLIER sequence index wins, because the selection loop replaces the
current best only on strictly smaller offset. -/
theorem mergeExampleEvents :
    (convert_to_midi
        [[⟨2, SPA_CONTROL_Midi, [10]⟩],
         [⟨1, SPA_CONTROL_Midi, [11]⟩, ⟨2, SPA_CONTROL_Midi, [12]⟩]]
        (emptyMidiBuffer 512 16)).events.map
        (fun e => (e.time, midi_event_data e)) =
      [(1, [11]), (2, [10]), (2, [12])] := by
  have h1 : pickStep
      [[⟨2, SPA_CONTROL_Midi, [10]⟩],
       [⟨1, SPA_CONTROL_Midi, [11]⟩, ⟨2, SPA_CONTROL_Midi, [12]⟩]] =
      some (⟨1, SPA_CONTROL_Midi, [11]⟩,
        [[⟨2, SPA_CONTROL_Midi, [10]⟩], [⟨2, SPA_CONTROL_Midi, [12]⟩]]) := by
    decide
  have h2 : pickStep
      [[⟨2, SPA_CONTROL_Midi, [10]⟩], [⟨2, SPA_CONTROL_Midi, [12]⟩]] =
      some (⟨2, SPA_CONTROL_Midi, [10]⟩, [[], [⟨2, SPA_CONTROL_Midi, [12]⟩]]) := by
    decide
  have h3 : pickStep [[], [⟨2, SPA_CONTROL_Midi, [12]⟩]] =
      some (⟨2, SPA_CONTROL_Midi, [12]⟩, [[], []]) := by
    decide
  have h4 : pickStep ([[], []] : List (List spa_pod_control)) = none := by
    decide
  rw [convert_to_midi_some h1, convert_to_midi_some h2, convert_to_midi_some h3,
    convert_to_midi_none h4]
  decide

/-- Claim C3, counterexample.  The merged destination order of the two
sequences [(t=2,a)] and [(t=1,b),(t=2,c)] is NOT [(1,b),(2,c),(2,a)] as the
claim asserts; the code emits [(1,b),(2,a),(2,c)] because the time tie at 2
goes to the earlier sequence. -/
theorem C3_counterexample :
    (convert_to_midi
        [[⟨2, SPA_CONTROL_Midi, [10]⟩],
         [⟨1, SPA_CONTROL_Midi, [11]⟩, ⟨2, SPA_CONTROL_Midi, [12]⟩]]
        (emptyMidiBuffer 512 16)).events.map
        (fun e => (e.time, midi_event_data e)) ≠
      [(1, [11]), (2, [12]), (2, [10])] := by
  rw [mergeExampleEvents]
  decide

/-- Claim C3 (amended): the decode merge visits the incoming wire controls
in nondecreasing timestamp order whenever every incoming sequence is itself
nondecreasing, advancing only the selected cursor at each step, with ties
on equal timestamps broken toward the earlier connection index; for the
two input sequences [(t=2,a)] and [(t=1,b),(t=2,c)] the merged destination
order is [(1,b),(2,a),(2,c)]. -/
theorem C3_merge_spec (seqs : List (List spa_pod_control))
    (hs : ∀ s ∈ seqs, List.Chain' (fun a b => a.offset ≤ b.offset) s) :
    List.Chain' (fun a b => a.offset ≤ b.offset) (mergeOrder seqs) ∧
    (convert_to_midi
        [[⟨2, SPA_CONTROL_Midi, [10]⟩],
         [⟨1, SPA_CONTROL_Midi, [11]⟩, ⟨2, SPA_CONTROL_Midi, [12]⟩]]
        (emptyMidiBuffer 512 16)).events.map
        (fun e => (e.time, midi_event_data e)) =
      [(1, [11]), (2, [10]), (2, [12])] :=
  ⟨mergeOrder_sorted (totalLen seqs) seqs le_rfl hs, mergeExampleEvents⟩

/-- Claim C3 witness: the amended merge specification applied to the
example sequences themselves. -/
theorem C3_merge_spec_witness :
    List.Chain' (fun a b => a.offset ≤ b.offset)
      (mergeOrder
        [[⟨2, SPA_CONTROL_Midi, [10]⟩],
         [⟨1, SPA_CONTROL_Midi, [11]⟩, ⟨2, SPA_CONTROL_Midi, [12]⟩]]) ∧
    (convert_to_midi
        [[⟨2, SPA_CONTROL_Midi, [10]⟩],
         [⟨1, SPA_CONTROL_Midi, [11]⟩, ⟨2, SPA_CONTROL_Midi, [12]⟩]]
        (emptyMidiBuffer 512 16)).events.map
        (fun e => (e.time, midi_event_data e)) =
      [(1, [11]), (2, [10]), (2, [12])] :=
  C3_merge_spec
    [[⟨2, SPA_CONTROL_Midi, [10]⟩],
     [⟨1, SPA_CONTROL_Midi, [11]⟩, ⟨2, SPA_CONTROL_Midi, [12]⟩]]
    (by
      intro s hs
      rcases List.mem_cons.mp hs with h | h
      · subst h; exact List.chain'_singleton _
      · rcases List.mem_cons.mp h with h2 | h2
        · subst h2
          exact List.chain'_cons.mpr ⟨by decide, List.chain'_singleton _⟩
        · simp at h2)

end PipewireJack


namespace PipewireJack

/-!
Section: per-mix buffer reuse queue (dequeue_buffer and reuse_buffer).
A mix holds a FIFO list of buffer ids available for reuse and each buffer
carries the BUFFER_FLAG_OUT flag; dequeue_buffer pops the queue head and
sets the flag, reuse_buffer appends to the tail and clears the flag, but
only when the flag is currently set.
-/

structure mix_state where
  queue : List Nat
  flags : Nat → Bool

/-- dequeue_buffer: empty queue yields no buffer; otherwise the head is
removed and its OUT flag set. -/
def dequeue_buffer (m : mix_state) : Option Nat × mix_state :=
  match m.queue with
  | [] => (none, m)
  | b :: rest =>
    (some b,
      { queue := rest, flags := fun i => if i = b then true else m.flags i })

/-- reuse_buffer: when the buffer with this id has its OUT flag set, append
it to the queue tail and clear the flag; otherwise do nothing. -/
def reuse_buffer (m : mix_state) (id : Nat) : mix_state :=
  if m.flags id then
    { queue := m.queue ++ [id],
      flags := fun i => if i = id then false else m.flags i }
  else m

inductive mix_op where
  | dequeue : mix_op
  | reuse (id : Nat) : mix_op

def runMix (m : mix_state) : List mix_op → mix_state
  | [] => m
  | mix_op.dequeue :: rest => runMix (dequeue_buffer m).2 rest
  | mix_op.reuse id :: rest => runMix (reuse_buffer m id) rest

/-- Invariant of the reuse queue: no duplicate ids, and no queued buffer has
its OUT flag set (never simultaneously queued and OUT). -/
def MixInv (m : mix_state) : Prop :=
  m.queue.Nodup ∧ ∀ b ∈ m.queue, m.flags b = false

theorem dequeue_buffer_empty (m : mix_state) (h : m.queue = []) :
    dequeue_buffer m = (none, m) := by
  simp [dequeue_buffer, h]

theorem dequeue_buffer_cons (m : mix_state) (b : Nat) (rest : List Nat)
    (h : m.queue = b :: rest) :
    dequeue_buffer m =
      (some b,
        { queue := rest, flags := fun i => if i = b then true else m.flags i }) := by
  simp [dequeue_buffer, h]

theorem reuse_buffer_out (m : mix_state) (id : Nat) (h : m.flags id = true) :
    reuse_buffer m id =
      { queue := m.queue ++ [id],
        flags := fun i => if i = id then false else m.flags i } := by
  simp [reuse_buffer, h]

theorem reuse_buffer_noop (m : mix_state) (id : Nat) (h : m.flags id = false) :
    reuse_buffer m id = m := by
  simp [reuse_buffer, h]

theorem dequeue_buffer_inv (m : mix_state) (h : MixInv m) :
    MixInv (dequeue_buffer m).2 := by
  obtain ⟨hnd, hfl⟩ := h
  cases hq : m.queue with
  | nil => rw [dequeue_buffer_empty m hq]; exact ⟨hnd, hfl⟩
  | cons b rest =>
    rw [dequeue_buffer_cons m b rest hq]
    rw [hq] at hnd hfl
    constructor
    · exact hnd.of_cons
    · intro x hx
      have hxb : x ≠ b := by
        intro he
        subst he
        exact (List.nodup_cons.mp hnd).1 hx
      simp only [hxb, if_false]
      exact hfl x (List.mem_cons_of_mem _ hx)

theorem reuse_buffer_inv (m : mix_state) (id : Nat) (h : MixInv m) :
    MixInv (reuse_buffer m id) := by
  obtain ⟨hnd, hfl⟩ := h
  cases hf : m.flags id with
  | false => rw [reuse_buffer_noop m id hf]; exact ⟨hnd, hfl⟩
  | true =>
    rw [reuse_buffer_out m id hf]
    have hid : id ∉ m.queue := by
      intro hmem
      rw [hfl id hmem] at hf
      exact Bool.false_ne_true hf
    constructor
    · rw [List.nodup_append]
      refine ⟨hnd, List.nodup_singleton _, ?_⟩
      intro a ha hb
      rw [List.mem_singleton] at hb
      subst hb
      exact hid ha
    · intro x hx
      rw [List.mem_append, List.mem_singleton] at hx
      rcases hx with hx | hx
      · have hxid : x ≠ id := fun he => hid (he ▸ hx)
        simp only [hxid, if_false]
        exact hfl x hx
      · simp [hx]

theorem runMix_inv (ops : List mix_op) :
    ∀ m, MixInv m → MixInv (runMix m ops) := by
  induction ops with
  | nil => intro m h; exact h
  | cons op rest ih =>
    intro m h
    cases op with
    | dequeue => exact ih _ (dequeue_buffer_inv m h)
    | reuse id => exact ih _ (reuse_buffer_inv m id h)

/-- Claim C2: dequeue_buffer pops the head of the reuse queue and sets its
OUT flag (returning none on an empty queue); reuse_buffer on a buffer whose
OUT flag is set clears the flag and appends it to the queue tail, and is a
no-op otherwise; a dequeue followed by two reuse calls restores the buffer
to the tail exactly once (the second reuse changes nothing); and from any
state where no buffer is both queued and OUT (with a duplicate-free queue)
every sequence of operations preserves that invariant. -/
theorem C2_reuse_queue_spec (m : mix_state) (b id : Nat) (ops : List mix_op) :
    (m.queue = [] → dequeue_buffer m = (none, m)) ∧
    (∀ rest, m.queue = b :: rest →
      (dequeue_buffer m).1 = some b ∧
      (dequeue_buffer m).2.queue = rest ∧
      (dequeue_buffer m).2.flags b = true) ∧
    (m.flags id = true →
      (reuse_buffer m id).queue = m.queue ++ [id] ∧
      (reuse_buffer m id).flags id = false) ∧
    (m.flags id = false → reuse_buffer m id = m) ∧
    (∀ rest, m.queue = b :: rest →
      (reuse_buffer (reuse_buffer (dequeue_buffer m).2 b) b).queue =
        rest ++ [b] ∧
      (reuse_buffer (reuse_buffer (dequeue_buffer m).2 b) b).flags b = false) ∧
    (MixInv m → MixInv (runMix m ops)) ∧
    (MixInv m → ∀ x ∈ m.queue, m.flags x = false) := by
  refine ⟨dequeue_buffer_empty m, ?_, ?_, reuse_buffer_noop m id,
    ?_, runMix_inv ops m, fun h => h.2⟩
  · intro rest hq
    rw [dequeue_buffer_cons m b rest hq]
    exact ⟨rfl, rfl, by simp⟩
  · intro hf
    rw [reuse_buffer_out m id hf]
    exact ⟨rfl, by simp⟩
  · intro rest hq
    have h2 : (dequeue_buffer m).2.flags b = true := by
      rw [dequeue_buffer_cons m b rest hq]
      simp
    rw [reuse_buffer_out _ b h2]
    have h4 : (if b = b then false else (dequeue_buffer m).2.flags b) = false := by
      simp
    rw [reuse_buffer_noop _ b h4]
    rw [dequeue_buffer_cons m b rest hq]
    exact ⟨rfl, by simp⟩

/-- Claim C2 witness: the specification instantiated on a mix whose queue
holds buffers 0 then 1, no OUT flag set, with a four-operation run. -/
theorem C2_reuse_queue_spec_witness :
    ((dequeue_buffer ⟨[0, 1], fun _ => false⟩).1 = some 0 ∧
      (dequeue_buffer ⟨[0, 1], fun _ => false⟩).2.queue = [1] ∧
      (dequeue_buffer ⟨[0, 1], fun _ => false⟩).2.flags 0 = true) ∧
    (reuse_buffer (reuse_buffer (dequeue_buffer ⟨[0, 1], fun _ => false⟩).2 0) 0).queue =
      [1] ++ [0] ∧
    MixInv (runMix ⟨[0, 1], fun _ => false⟩
      [mix_op.dequeue, mix_op.reuse 0, mix_op.dequeue, mix_op.reuse 5]) := by
  have h := C2_reuse_queue_spec ⟨[0, 1], fun _ => false⟩ 0 5
    [mix_op.dequeue, mix_op.reuse 0, mix_op.dequeue, mix_op.reuse 5]
  refine ⟨h.2.1 [1] rfl, (h.2.2.2.2.1 [1] rfl).1, h.2.2.2.2.2.1 ?_⟩
  exact ⟨by decide, fun x hx => rfl⟩

end PipewireJack

namespace PipewireJack

/-!
Section: port pool (alloc_port and free_port).
Ports live in fixed per-direction arenas; a free list per direction holds
the unallocated slots (slot direction is assigned once by init_port_pool
and never changes, modelled by the fixed map dirOf).  alloc_port pops the
head of the free list of the requested direction, marks the slot valid,
resets its mix list and appends it to the active list; free_port on a
valid slot first releases every Mix entry of the slot to the global
free-mix list, removes the slot from the active list, clears valid and
appends the slot to the free list of its direction; free_port on an
invalid slot does nothing.  The paired graph-object bookkeeping
(alloc_object and free_object on the unbounded object pool) does not touch
the port-slot state and is elided.
-/

structure port_pool_state where
  freePorts : Bool → List Nat
  activePorts : Bool → List Nat
  valid : Nat → Bool
  portMix : Nat → List Nat
  freeMix : List Nat

def alloc_port (pool : port_pool_state) (d : Bool) :
    Option Nat × port_pool_state :=
  match pool.freePorts d with
  | [] => (none, pool)
  | p :: rest =>
    (some p,
      { freePorts := fun d2 => if d2 = d then rest else pool.freePorts d2
        activePorts := fun d2 =>
          if d2 = d then pool.activePorts d2 ++ [p] else pool.activePorts d2
        valid := fun q => if q = p then true else pool.valid q
        portMix := fun q => if q = p then [] else pool.portMix q
        freeMix := pool.freeMix })

def free_port (dirOf : Nat → Bool) (pool : port_pool_state) (p : Nat) :
    port_pool_state :=
  if pool.valid p then
    { freePorts := fun d2 =>
        if d2 = dirOf p then pool.freePorts d2 ++ [p] else pool.freePorts d2
      activePorts := fun d2 =>
        if d2 = dirOf p then (pool.activePorts d2).erase p
        else pool.activePorts d2
      valid := fun q => if q = p then false else pool.valid q
      portMix := fun q => if q = p then [] else pool.portMix q
      freeMix := pool.freeMix ++ pool.portMix p }
  else pool

inductive pool_op where
  | alloc (d : Bool) : pool_op
  | free (p : Nat) : pool_op

def runPool (dirOf : Nat → Bool) (pool : port_pool_state) :
    List pool_op → port_pool_state
  | [] => pool
  | pool_op.alloc d :: rest => runPool dirOf (alloc_port pool d).2 rest
  | pool_op.free p :: rest => runPool dirOf (free_port dirOf pool p) rest

/-- Iterated allocation: allocN k performs k allocations and returns the
result of the next one. -/
def allocN (pool : port_pool_state) (d : Bool) : Nat → Option Nat × port_pool_state
  | 0 => alloc_port pool d
  | k + 1 => allocN (alloc_port pool d).2 d k

/-- Pool invariant: each per-direction free list is duplicate-free, holds
only invalid slots, and holds only slots of its own direction. -/
def PoolInv (dirOf : Nat → Bool) (pool : port_pool_state) : Prop :=
  (∀ d, (pool.freePorts d).Nodup) ∧
  (∀ d, ∀ p ∈ pool.freePorts d, pool.valid p = false ∧ dirOf p = d)

theorem alloc_port_empty (pool : port_pool_state) (d : Bool)
    (h : pool.freePorts d = []) : alloc_port pool d = (none, pool) := by
  simp [alloc_port, h]

theorem alloc_port_cons (pool : port_pool_state) (d : Bool) (p : Nat)
    (rest : List Nat) (h : pool.freePorts d = p :: rest) :
    alloc_port pool d =
      (some p,
        { freePorts := fun d2 => if d2 = d then rest else pool.freePorts d2
          activePorts := fun d2 =>
            if d2 = d then pool.activePorts d2 ++ [p] else pool.activePorts d2
          valid := fun q => if q = p then true else pool.valid q
          portMix := fun q => if q = p then [] else pool.portMix q
          freeMix := pool.freeMix }) := by
  simp [alloc_port, h]

theorem free_port_valid (dirOf : Nat → Bool) (pool : port_pool_state) (p : Nat)
    (h : pool.valid p = true) :
    free_port dirOf pool p =
      { freePorts := fun d2 =>
          if d2 = dirOf p then pool.freePorts d2 ++ [p] else pool.freePorts d2
        activePorts := fun d2 =>
          if d2 = dirOf p then (pool.activePorts d2).erase p
          else pool.activePorts d2
        valid := fun q => if q = p then false else pool.valid q
        portMix := fun q => if q = p then [] else pool.portMix q
        freeMix := pool.freeMix ++ pool.portMix p } := by
  simp [free_port, h]

theorem free_port_invalid (dirOf : Nat → Bool) (pool : port_pool_state)
    (p : Nat) (h : pool.valid p = false) : free_port dirOf pool p = pool := by
  simp [free_port, h]

theorem alloc_port_inv (dirOf : Nat → Bool) (pool : port_pool_state) (d : Bool)
    (h : PoolInv dirOf pool) : PoolInv dirOf (alloc_port pool d).2 := by
  obtain ⟨hnd, hfree⟩ := h
  cases hq : pool.freePorts d with
  | nil => rw [alloc_port_empty pool d hq]; exact ⟨hnd, hfree⟩
  | cons p rest =>
    rw [alloc_port_cons pool d p rest hq]
    have hpd : dirOf p = d := (hfree d p (by rw [hq]; exact List.mem_cons_self _ _)).2
    have hndd := hnd d
    rw [hq] at hndd
    constructor
    · intro d2
      by_cases hd2 : d2 = d
      · simp only [hd2, if_true]
        exact hndd.of_cons
      · simp only [hd2, if_false]
        exact hnd d2
    · intro d2 q hqmem
      by_cases hd2 : d2 = d
      · simp only [hd2, if_true] at hqmem
        have hold := hfree d q (by rw [hq]; exact List.mem_cons_of_mem _ hqmem)
        have hqp : q ≠ p := by
          intro he
          subst he
          exact (List.nodup_cons.mp hndd).1 hqmem
        simp only [hqp, if_false]
        rw [hd2]
        exact hold
      · simp only [hd2, if_false] at hqmem
        have hold := hfree d2 q hqmem
        have hqp : q ≠ p := by
          intro he
          subst he
          rw [hold.2] at hpd
          exact hd2 hpd
        simp only [hqp, if_false]
        exact hold

theorem free_port_inv (dirOf : Nat → Bool) (pool : port_pool_state) (p : Nat)
    (h : PoolInv dirOf pool) : PoolInv dirOf (free_port dirOf pool p) := by
  obtain ⟨hnd, hfree⟩ := h
  cases hv : pool.valid p with
  | false => rw [free_port_invalid dirOf pool p hv]; exact ⟨hnd, hfree⟩
  | true =>
    rw [free_port_valid dirOf pool p hv]
    have hnotfree : ∀ d, p ∉ pool.freePorts d := by
      intro d hmem
      have := (hfree d p hmem).1
      rw [this] at hv
      exact Bool.false_ne_true hv
    constructor
    · intro d2
      by_cases hd2 : d2 = dirOf p
      · simp only [hd2, if_true]
        rw [List.nodup_append]
        refine ⟨hnd _, List.nodup_singleton _, ?_⟩
        intro a ha hb
        rw [List.mem_singleton] at hb
        subst hb
        exact hnotfree _ ha
      · simp only [hd2, if_false]
        exact hnd d2
    · intro d2 q hqmem
      by_cases hd2 : d2 = dirOf p
      · simp only [hd2, if_true] at hqmem
        rw [List.mem_append, List.mem_singleton] at hqmem
        rcases hqmem with hqm | hqm
        · have hold := hfree _ q hqm
          have hqp : q ≠ p := fun he => hnotfree _ (he ▸ hqm)
          simp only [hqp, if_false]
          rw [hd2]
          exact hold
        · subst hqm
          exact ⟨by simp, hd2.symm⟩
      · simp only [hd2, if_false] at hqmem
        have hold := hfree d2 q hqmem
        have hqp : q ≠ p := by
          intro he
          subst he
          exact hd2 hold.2.symm
        simp only [hqp, if_false]
        exact hold

theorem runPool_inv (dirOf : Nat → Bool) (ops : List pool_op) :
    ∀ pool, PoolInv dirOf pool → PoolInv dirOf (runPool dirOf pool ops) := by
  induction ops with
  | nil => intro pool h; exact h
  | cons op rest ih =>
    intro pool h
    cases op with
    | alloc d => exact ih _ (alloc_port_inv dirOf pool d h)
    | free p => exact ih _ (free_port_inv dirOf pool p h)

theorem allocN_mem :
    ∀ (l : List Nat) (pool : port_pool_state) (d : Bool),
      pool.freePorts d = l → ∀ p ∈ l, ∃ k, (allocN pool d k).1 = some p := by
  intro l
  induction l with
  | nil => intro pool d h p hp; simp at hp
  | cons q rest ih =>
    intro pool d h p hp
    rcases List.mem_cons.mp hp with he | hm
    · subst he
      refine ⟨0, ?_⟩
      show (alloc_port pool d).1 = some p
      rw [alloc_port_cons pool d p rest h]
    · have h2 : (alloc_port pool d).2.freePorts d = rest := by
        rw [alloc_port_cons pool d q rest h]
        simp
      obtain ⟨k, hk⟩ := ih (alloc_port pool d).2 d h2 p hm
      exact ⟨k + 1, hk⟩

end PipewireJack

namespace PipewireJack

/-- Claim C5: alloc_port fails exactly when the per-direction free list is
empty; under the pool invariant every successful allocation hands out a
slot that was not valid (not live) before, marks it valid and removes it
from every free list, so no slot is valid for two live allocations
simultaneously; free_port on a valid slot releases all its Mix entries to
the global free-mix list before appending the slot to the free list of its
direction, and clears valid; free_port on an invalid slot is a no-op, so a
double free equals a single free; the invariant is preserved by every
operation sequence; and a slot on a free list is returned by some later
allocation. -/
theorem C5_port_pool_spec (dirOf : Nat → Bool) (pool : port_pool_state)
    (d : Bool) (p : Nat) (ops : List pool_op) :
    ((alloc_port pool d).1 = none ↔ pool.freePorts d = []) ∧
    (PoolInv dirOf pool → ∀ q, (alloc_port pool d).1 = some q →
      pool.valid q = false ∧ (alloc_port pool d).2.valid q = true ∧
      ∀ d2, q ∉ (alloc_port pool d).2.freePorts d2) ∧
    (pool.valid p = true →
      (free_port dirOf pool p).freeMix = pool.freeMix ++ pool.portMix p ∧
      (free_port dirOf pool p).portMix p = [] ∧
      (free_port dirOf pool p).valid p = false ∧
      p ∈ (free_port dirOf pool p).freePorts (dirOf p)) ∧
    (pool.valid p = false → free_port dirOf pool p = pool) ∧
    (free_port dirOf (free_port dirOf pool p) p = free_port dirOf pool p) ∧
    (PoolInv dirOf pool → PoolInv dirOf (runPool dirOf pool ops)) ∧
    (PoolInv dirOf pool →
      ∀ q ∈ pool.freePorts d, ∃ k, (allocN pool d k).1 = some q) := by
  refine ⟨?_, ?_, ?_, free_port_invalid dirOf pool p, ?_,
    runPool_inv dirOf ops pool, fun h q hq => allocN_mem _ pool d rfl q hq⟩
  · cases hq : pool.freePorts d with
    | nil => rw [alloc_port_empty pool d hq]; simp
    | cons q rest => rw [alloc_port_cons pool d q rest hq]; simp [hq]
  · intro hinv q halloc
    obtain ⟨hnd, hfree⟩ := hinv
    cases hq : pool.freePorts d with
    | nil => rw [alloc_port_empty pool d hq] at halloc; simp at halloc
    | cons r rest =>
      rw [alloc_port_cons pool d r rest hq] at halloc ⊢
      have hrq : q = r := by simpa using halloc.symm
      subst hrq
      have hmem : q ∈ pool.freePorts d := by
        rw [hq]; exact List.mem_cons_self _ _
      have hndd := hnd d
      rw [hq] at hndd
      refine ⟨(hfree d q hmem).1, by simp, ?_⟩
      intro d2
      by_cases hd2 : d2 = d
      · simp only [hd2, if_true]
        exact (List.nodup_cons.mp hndd).1
      · simp only [hd2, if_false]
        intro hmem2
        have := (hfree d2 q hmem2).2
        rw [(hfree d q hmem).2] at this
        exact hd2 this.symm
  · intro hv
    rw [free_port_valid dirOf pool p hv]
    refine ⟨rfl, by simp, by simp, ?_⟩
    simp
  · cases hv : pool.valid p with
    | false =>
      rw [free_port_invalid dirOf pool p hv]
      exact free_port_invalid dirOf pool p hv
    | true =>
      have h2 : (free_port dirOf pool p).valid p = false := by
        rw [free_port_valid dirOf pool p hv]
        simp
      rw [free_port_invalid dirOf _ p h2]

/-- Concrete pool for the C5 witness: slot 0 has direction false and is
currently allocated with one Mix entry (id 5); slot 1 has direction true
and sits on the free list of direction true. -/
def dirOfW : Nat → Bool := fun q => decide (q = 1)

def poolW : port_pool_state :=
  { freePorts := fun d => if d then [1] else []
    activePorts := fun d => if d then [] else [0]
    valid := fun q => decide (q = 0)
    portMix := fun q => if q = 0 then [5] else []
    freeMix := [] }

theorem poolW_inv : PoolInv dirOfW poolW := by
  constructor
  · intro d
    cases d <;> simp [poolW]
  · intro d q hq
    cases d
    · simp [poolW] at hq
    · simp [poolW] at hq
      subst hq
      exact ⟨rfl, rfl⟩

/-- Claim C5 witness: the pool specification instantiated on poolW with
direction map dirOfW; it allocates slot 1, frees slot 0 (releasing its Mix
entry), shows double free equals single free, and preserves the invariant
over a mixed operation run. -/
theorem C5_port_pool_spec_witness :
    (poolW.valid 1 = false ∧ (alloc_port poolW true).2.valid 1 = true ∧
      1 ∉ (alloc_port poolW true).2.freePorts false ∧
      1 ∉ (alloc_port poolW true).2.freePorts true) ∧
    ((free_port dirOfW poolW 0).freeMix = [] ++ [5] ∧
      (free_port dirOfW poolW 0).portMix 0 = [] ∧
      (free_port dirOfW poolW 0).valid 0 = false ∧
      0 ∈ (free_port dirOfW poolW 0).freePorts (dirOfW 0)) ∧
    free_port dirOfW (free_port dirOfW poolW 0) 0 = free_port dirOfW poolW 0 ∧
    PoolInv dirOfW (runPool dirOfW poolW
      [pool_op.free 0, pool_op.alloc false, pool_op.alloc true]) := by
  have h0 := C5_port_pool_spec dirOfW poolW true 0
    [pool_op.free 0, pool_op.alloc false, pool_op.alloc true]
  have h2 := h0.2.1 poolW_inv 1 (by decide)
  exact ⟨⟨h2.1, h2.2.1, h2.2.2 false, h2.2.2 true⟩,
    h0.2.2.1 (by decide),
    h0.2.2.2.2.1,
    h0.2.2.2.2.2.1 poolW_inv⟩

end PipewireJack

namespace PipewireJack

/-!
Section: timebase owner slot (jack_set_timebase_callback and
jack_release_timebase).  The slot a->segment_owner[0] holds the node id of
the timebase master, 0 meaning unowned; it is manipulated with atomic
compare-and-swap (sequential model: the cross-process interleaving itself
is not modelled).  Registration of the callback pointer, do_activate and
the pending_new_pos flag write on the successful acquire path do not
affect the owner slot and are elided.
-/

def EIO_err : Int := 5

def EINVAL : Int := 22

def EBUSY : Int := 16

/-- ATOMIC_CAS on the owner slot: returns whether the swap happened plus
the new slot value. -/
def ATOMIC_CAS (slot expected desired : Nat) : Bool × Nat :=
  if slot = expected then (true, desired) else (false, slot)

/-- jack_release_timebase: without a driver activation returns the negated EIO errno;
otherwise compare-and-swaps the owner slot from the own node id back to 0
and returns -EINVAL (slot unchanged) when the caller does not hold it. -/
def jack_release_timebase (hasActivation : Bool) (node_id owner : Nat) :
    Int × Nat :=
  if !hasActivation then (-EIO_err, owner)
  else
    match ATOMIC_CAS owner node_id 0 with
    | (false, o) => (-EINVAL, o)
    | (true, o) => (0, o)

/-- jack_set_timebase_callback (owner-slot part): without a driver
activation returns -EIO; if the slot already holds the own node id returns
0 unchanged; with conditional nonzero tries CAS from 0 and returns -EBUSY
(slot unchanged) when the slot is held; with conditional zero
unconditionally stores the own node id. -/
def jack_set_timebase_callback (hasActivation : Bool) (node_id : Nat)
    (conditional : Bool) (owner : Nat) : Int × Nat :=
  if !hasActivation then (-EIO_err, owner)
  else if owner = node_id then (0, owner)
  else if conditional then
    match ATOMIC_CAS owner 0 node_id with
    | (false, o) => (-EBUSY, o)
    | (true, o) => (0, o)
  else (0, node_id)

/-- Claim C6: with a driver activation present, conditional acquisition
returns -EBUSY and leaves the owner slot unchanged when the slot is held
by another client id; unconditional acquisition always leaves the slot
holding the own node id and returns 0; and release succeeds (slot becomes
0, the unowned value) exactly when the caller holds the slot, otherwise
returning -EINVAL with the slot unchanged. -/
theorem C6_timebase_spec (node_id owner : Nat) :
    (owner ≠ node_id → owner ≠ 0 →
      jack_set_timebase_callback true node_id true owner = (-EBUSY, owner)) ∧
    (owner = 0 →
      jack_set_timebase_callback true node_id true owner = (0, node_id)) ∧
    (jack_set_timebase_callback true node_id false owner).2 = node_id ∧
    (jack_set_timebase_callback true node_id false owner).1 = 0 ∧
    ((jack_release_timebase true node_id owner).1 = 0 ↔ owner = node_id) ∧
    (owner = node_id → jack_release_timebase true node_id owner = (0, 0)) ∧
    (owner ≠ node_id →
      jack_release_timebase true node_id owner = (-EINVAL, owner)) := by
  refine ⟨?_, ?_, ?_, ?_, ?_, ?_, ?_⟩
  · intro h1 h2
    simp [jack_set_timebase_callback, ATOMIC_CAS, h1, h2]
  · intro h0
    subst h0
    by_cases h : (0 : Nat) = node_id
    · simp [jack_set_timebase_callback, ATOMIC_CAS, ← h]
    · simp [jack_set_timebase_callback, ATOMIC_CAS, h]
  · by_cases h : owner = node_id <;>
      simp [jack_set_timebase_callback, ATOMIC_CAS, h]
  · by_cases h : owner = node_id <;>
      simp [jack_set_timebase_callback, ATOMIC_CAS, h]
  · by_cases h : owner = node_id
    · simp [jack_release_timebase, ATOMIC_CAS, h]
    · simp [jack_release_timebase, ATOMIC_CAS, h, EINVAL]
  · intro h
    simp [jack_release_timebase, ATOMIC_CAS, h]
  · intro h
    have h2 : ¬ owner = node_id := h
    simp [jack_release_timebase, ATOMIC_CAS, h2]

/-- Claim C6 witness: client with node id 7 against the slot values 9
(held by another client), 0 (unowned) and 7 (held by the caller). -/
theorem C6_timebase_spec_witness :
    jack_set_timebase_callback true 7 true 9 = (-EBUSY, 9) ∧
    (jack_set_timebase_callback true 7 true 0).2 = 7 ∧
    (jack_set_timebase_callback true 7 false 9).2 = 7 ∧
    jack_release_timebase true 7 7 = (0, 0) ∧
    jack_release_timebase true 7 9 = (-EINVAL, 9) :=
  ⟨(C6_timebase_spec 7 9).1 (by decide) (by decide),
   by rw [(C6_timebase_spec 7 0).2.1 rfl],
   (C6_timebase_spec 7 9).2.2.1,
   (C6_timebase_spec 7 7).2.2.2.2.2.1 rfl,
   (C6_timebase_spec 7 9).2.2.2.2.2.2 (by decide)⟩

end PipewireJack

namespace PipewireJack

/-!
Section: real-time cycle engine (cycle_run, cycle_signal and
on_rtsocket_condition).  The blocking read of the wake descriptor is
modelled by the flags readOk and wouldBlock (the value read is used only
for logging); the activation status and timestamp writes, the transport
translation position_to_jack (summarised by the jack_rolling flag derived
from the driver activation) and signal_sync (which signals peers but
invokes no user callback) are elided where they do not affect control
flow.  User callbacks are recorded as an event list.
-/

structure io_position where
  duration : Nat
  rate_denom : Nat
  nsec : Nat

structure driver_activation where
  xrun_count : Nat
  segment_owner : Nat
  rolling : Bool

structure jclient where
  position : Option io_position
  driver : Option driver_activation
  pending_sync : Bool
  pending_new_pos : Bool
  node_id : Nat
  buffer_frames : Nat
  sample_rate : Nat
  xrun_count : Nat
  first : Bool
  thread_entered : Bool
  jack_rolling : Bool
  thread_init_cb : Bool
  bufsize_cb : Bool
  srate_cb : Bool
  sync_cb : Bool
  sync_cb_result : Bool
  xrun_cb : Bool
  process_cb : Bool
  thread_cb : Bool
  timebase_cb : Bool

inductive cb_event where
  | threadInit : cb_event
  | bufsize (n : Nat) : cb_event
  | srate (n : Nat) : cb_event
  | sync : cb_event
  | xrun : cb_event
  | process (n : Nat) : cb_event
  | timebase : cb_event
  | threadStart : cb_event
  deriving Repr, DecidableEq

/-- cycle_run: returns the period size together with the updated client and
the user callbacks invoked.  A failed read that would block, or a missing
position pointer, yields a zero period. -/
def cycle_run (readOk wouldBlock : Bool) (c : jclient) :
    Nat × jclient × List cb_event :=
  if !readOk && wouldBlock then (0, c, [])
  else
    match c.position with
    | none => (0, c, [])
    | some pos =>
      let (c1, evs1) :=
        if c.first then
          ({ c with first := false },
            if c.thread_init_cb then [cb_event.threadInit] else [])
        else (c, [])
      let bf := pos.duration
      let (c2, evs2) :=
        if bf ≠ c1.buffer_frames then
          ({ c1 with buffer_frames := bf },
            if c1.bufsize_cb then [cb_event.bufsize bf] else [])
        else (c1, [])
      let sr := pos.rate_denom
      let (c3, evs3) :=
        if sr ≠ c2.sample_rate then
          ({ c2 with sample_rate := sr },
            if c2.srate_cb then [cb_event.srate sr] else [])
        else (c2, [])
      let c3p := { c3 with jack_rolling :=
        match c3.driver with
        | none => false
        | some d => d.rolling }
      let (c4, evs4) :=
        match c3p.driver with
        | none => (c3p, [])
        | some d =>
          let (c4a, evsa) :=
            if c3p.pending_sync then
              if !c3p.sync_cb || c3p.sync_cb_result then
                ({ c3p with pending_sync := false },
                  if c3p.sync_cb then [cb_event.sync] else [])
              else (c3p, [cb_event.sync])
            else (c3p, [])
          let (c4b, evsb) :=
            if c4a.xrun_count ≠ d.xrun_count ∧ c4a.xrun_count ≠ 0 ∧ c4a.xrun_cb then
              ({ c4a with xrun_count := d.xrun_count }, [cb_event.xrun])
            else ({ c4a with xrun_count := d.xrun_count }, [])
          (c4b, evsa ++ evsb)
      (bf, c4, evs1 ++ evs2 ++ evs3 ++ evs4)

/-- cycle_signal: on process status 0, a client that is the timebase master
(owner slot holds its node id) with a pending new position or a rolling
transport invokes the timebase callback and clears the pending flag; then
signal_sync runs (no user callback). -/
def cycle_signal (c : jclient) (status : Int) : jclient × List cb_event :=
  if status = 0 then
    match c.driver with
    | some d =>
      if c.timebase_cb ∧ d.segment_owner = c.node_id then
        if c.pending_new_pos ∨ c.jack_rolling then
          ({ c with pending_new_pos := false }, [cb_event.timebase])
        else (c, [])
      else (c, [])
    | none => (c, [])
  else (c, [])

/-- on_rtsocket_condition: on error or hangup the socket is torn down (no
user callback); a registered thread callback takes over the thread once;
otherwise on input the engine runs the cycle, invokes the process callback
with the period returned by cycle_run (status 0 when no process callback
is registered; processResult models the value the process callback
returns), and signals. -/
def on_rtsocket_condition (errhup ioin readOk wouldBlock : Bool)
    (processResult : Int) (c : jclient) : jclient × List cb_event :=
  if errhup then (c, [])
  else if c.thread_cb then
    if !c.thread_entered then
      ({ c with thread_entered := true }, [cb_event.threadStart])
    else (c, [])
  else if ioin then
    let r := cycle_run readOk wouldBlock c
    let pevs := if r.2.1.process_cb then [cb_event.process r.1] else []
    let status : Int := if r.2.1.process_cb then processResult else 0
    let s := cycle_signal r.2.1 status
    (s.1, r.2.2 ++ pevs ++ s.2)
  else (c, [])

/-- Concrete client for claim C7: missing position pointer, registered
process callback, every other hook also registered, no thread takeover
callback. -/
def clientW : jclient :=
  { position := none, driver := none, pending_sync := false,
    pending_new_pos := false, node_id := 3, buffer_frames := 0,
    sample_rate := 0, xrun_count := 0, first := true,
    thread_entered := false, jack_rolling := false, thread_init_cb := true,
    bufsize_cb := true, srate_cb := true, sync_cb := true,
    sync_cb_result := true, xrun_cb := true, process_cb := true,
    thread_cb := false, timebase_cb := false }

/-- Claim C7, counterexample.  With the position pointer missing, cycle_run
itself returns a zero period and invokes no callback, but the socket
handler still invokes the registered process callback (with a zero
period), so the claim that no user callback is invoked that period is
false. -/
theorem C7_counterexample :
    (cycle_run true false clientW).1 = 0 ∧
    (cycle_run true false clientW).2.2 = [] ∧
    (on_rtsocket_condition false true true false 0 clientW).2 =
      [cb_event.process 0] ∧
    (on_rtsocket_condition false true true false 0 clientW).2 ≠ [] := by
  decide

/-- Claim C7 (amended): for every client whose position pointer is missing,
cycle_run returns a zero period with the client unchanged and invokes no
user callback inside cycle_run; the period is however not callback-free:
on input the socket handler still invokes the registered process callback,
with period 0, followed by the cycle_signal events. -/
theorem C7_cycle_spec (c : jclient) (readOk wouldBlock : Bool)
    (processResult : Int) (hpos : c.position = none) :
    cycle_run readOk wouldBlock c = (0, c, []) ∧
    (c.thread_cb = false →
      (on_rtsocket_condition false true readOk wouldBlock processResult c).2 =
        (if c.process_cb then [cb_event.process 0] else []) ++
          (cycle_signal c
            (if c.process_cb then processResult else 0)).2) := by
  have hrun : cycle_run readOk wouldBlock c = (0, c, []) := by
    unfold cycle_run
    rw [hpos]
    cases (!readOk && wouldBlock) <;> rfl
  refine ⟨hrun, ?_⟩
  intro hth
  unfold on_rtsocket_condition
  rw [hth, hrun]
  simp

/-- Claim C7 witness: the amended statement evaluated on the concrete
client clientW (missing position, process callback registered). -/
theorem C7_cycle_spec_witness :
    cycle_run true false clientW = (0, clientW, []) ∧
    (on_rtsocket_condition false true true false 0 clientW).2 =
      (if clientW.process_cb then [cb_event.process 0] else []) ++
        (cycle_signal clientW (if clientW.process_cb then 0 else 0)).2 :=
  ⟨(C7_cycle_spec clientW true false 0 rfl).1,
   (C7_cycle_spec clientW true false 0 rfl).2 rfl⟩

end PipewireJack

namespace PipewireJack

/-!
Section: registry object cache (registry_event_global and
registry_event_global_remove).  Announced objects are mirrored into
per-type lists and published in the pw_map of globals, a dense array with
NULL padding for skipped identifiers; announcements with missing required
properties are dropped.  Property dictionaries are modelled as typed
option fields; the latency defaults, aliases and the port priority copied
from the owning node are elided.
-/

inductive pw_obj where
  | node (name : String) (priority : Int) : pw_obj
  | port (name : String) (node_id : Nat) (flags : Nat) (type_id : Nat) : pw_obj
  | link (src dst : Nat) : pw_obj
  deriving Repr, DecidableEq

structure graph_obj where
  id : Nat
  body : pw_obj
  deriving Repr, DecidableEq

structure registry_state where
  globals : List (Option graph_obj)
  nodes : List graph_obj
  ports : List graph_obj
  links : List graph_obj
  deriving Repr, DecidableEq

structure node_props where
  description : Option String
  nick : Option String
  node_name : Option String
  priority_master : Option Int

structure port_props where
  format_dsp : Option String
  node_id : Option Nat
  port_name : Option String
  direction : Option String
  physical : Bool
  terminal : Bool
  control : Bool

structure link_props where
  output_port : Option Nat
  input_port : Option Nat

inductive announce where
  | nodeA (p : node_props) : announce
  | portA (p : port_props) : announce
  | linkA (p : link_props) : announce
  | otherA : announce

inductive reg_event where
  | registration (name : String) (registered : Bool) : reg_event
  | portRegistration (id : Nat) (registered : Bool) : reg_event
  | connectEvent (src dst : Nat) (registered : Bool) : reg_event
  deriving Repr, DecidableEq

def JackPortIsInput : Nat := 1

def JackPortIsOutput : Nat := 2

def JackPortIsPhysical : Nat := 4

def JackPortIsTerminal : Nat := 16

def JACK_DEFAULT_AUDIO_TYPE : String := "32 bit float mono audio"

def JACK_DEFAULT_MIDI_TYPE : String := "8 bit raw midi"

def JACK_DEFAULT_VIDEO_TYPE : String := "32 bit float RGBA video"

/-- string_to_type: none models SPA_ID_INVALID. -/
def string_to_type (s : String) : Option Nat :=
  if s = JACK_DEFAULT_AUDIO_TYPE then some 0
  else if s = JACK_DEFAULT_MIDI_TYPE then some 1
  else if s = JACK_DEFAULT_VIDEO_TYPE then some 2
  else if s = "other" then some 3
  else none

/-- pw_map_lookup: out-of-range or padded identifiers resolve to nothing. -/
def map_lookup (m : List (Option graph_obj)) (id : Nat) : Option graph_obj :=
  (m.getD id none)

/-- Publication in the globals map: the while loop pads with NULL entries
until the map size reaches the id, then pw_map_insert_at stores the
object. -/
def globals_publish (m : List (Option graph_obj)) (id : Nat) (o : graph_obj) :
    List (Option graph_obj) :=
  if id < m.length then m.set id (some o)
  else m ++ List.replicate (id - m.length) none ++ [some o]

/-- find_port: linear scan of the context port list by port name. -/
def find_port (st : registry_state) (name : String) : Option graph_obj :=
  st.ports.find? fun o =>
    match o.body with
    | pw_obj.port n _ _ _ => n == name
    | _ => false

def portNameOf (o : graph_obj) : String :=
  match o.body with
  | pw_obj.port n _ _ _ => n
  | _ => ""

/-- registry_event_global.  Node announcements always publish (the name
falls back to "node", formatted name/id); Port announcements are dropped
on an invalid format type, a missing node-id property or a missing
port-name property, and also when the owning node is not a known Node in
the map (the freshly allocated object is unlinked again); Link
announcements are dropped when either endpoint property is missing (the
object already appended to the link list is unlinked again by exit_free).
Only published objects reach the map and fire a callback. -/
def registry_event_global (clientNodeId : Nat) (clientName : String)
    (st : registry_state) (id : Nat) (a : announce) :
    registry_state × List reg_event :=
  match a with
  | announce.nodeA p =>
    let base :=
      ((p.description.orElse fun _ => p.nick).orElse fun _ => p.node_name).getD
        "node"
    let name := base ++ "/" ++ toString id
    let prio := p.priority_master.getD 0
    let o : graph_obj := ⟨id, pw_obj.node name prio⟩
    ({ st with
        nodes := st.nodes ++ [o]
        globals := globals_publish st.globals id o },
     [reg_event.registration name true])
  | announce.portA p =>
    match string_to_type (p.format_dsp.getD "other") with
    | none => (st, [])
    | some tid0 =>
      match p.node_id with
      | none => (st, [])
      | some node_id =>
        match p.port_name with
        | none => (st, [])
        | some pname =>
          let flags :=
            (match p.direction with
             | some dir =>
               if dir = "in" then JackPortIsInput
               else if dir = "out" then JackPortIsOutput
               else 0
             | none => 0) +
            (if p.physical then JackPortIsPhysical else 0) +
            (if p.terminal then JackPortIsTerminal else 0)
          let tid := if p.control then 1 else tid0
          let found :=
            if node_id = clientNodeId then
              find_port st (clientName ++ ":" ++ pname)
            else none
          match found with
          | some o0 =>
            let o : graph_obj :=
              ⟨id, pw_obj.port (portNameOf o0) node_id flags tid⟩
            ({ st with
                ports := st.ports.replace o0 o
                globals := globals_publish st.globals id o },
             [reg_event.portRegistration id true])
          | none =>
            match map_lookup st.globals node_id with
            | some ot =>
              match ot.body with
              | pw_obj.node nname _ =>
                let o : graph_obj :=
                  ⟨id, pw_obj.port (nname ++ ":" ++ pname) node_id flags tid⟩
                ({ st with
                    ports := st.ports ++ [o]
                    globals := globals_publish st.globals id o },
                 [reg_event.portRegistration id true])
              | _ => (st, [])
            | none => (st, [])
  | announce.linkA p =>
    match p.output_port with
    | none => (st, [])
    | some src =>
      match p.input_port with
      | none => (st, [])
      | some dst =>
        let o : graph_obj := ⟨id, pw_obj.link src dst⟩
        ({ st with
            links := st.links ++ [o]
            globals := globals_publish st.globals id o },
         [reg_event.connectEvent src dst true])
  | announce.otherA => (st, [])

/-- registry_event_global_remove: unknown ids are ignored; otherwise the
matching unregister callback fires and the object storage is recycled
(erased from its per-type list) while the map entry is deliberately kept
(the map clear is commented out in the source so that objects appear to
hang around). -/
def registry_event_global_remove (st : registry_state) (id : Nat) :
    registry_state × List reg_event :=
  match map_lookup st.globals id with
  | none => (st, [])
  | some o =>
    let ev :=
      match o.body with
      | pw_obj.node name _ => reg_event.registration name false
      | pw_obj.port _ _ _ _ => reg_event.portRegistration o.id false
      | pw_obj.link src dst => reg_event.connectEvent src dst false
    ({ st with
        nodes := st.nodes.erase o
        ports := st.ports.erase o
        links := st.links.erase o },
     [ev])

end PipewireJack

namespace PipewireJack

/-- Claim C9, counterexample.  A Port announcement with id 5 whose
properties lack the node-id key is dropped silently, but NO slot is
reserved in the identifier map: the globals map stays empty, so the claim
that a slot for the identifier is still reserved is false. -/
theorem C9_counterexample :
    (registry_event_global 1 "client" ⟨[], [], [], []⟩ 5
        (announce.portA ⟨none, none, some "out", some "out",
          false, false, false⟩)).1.globals = [] ∧
    (registry_event_global 1 "client" ⟨[], [], [], []⟩ 5
        (announce.portA ⟨none, none, some "out", some "out",
          false, false, false⟩)).2 = [] ∧
    ¬ 5 < (registry_event_global 1 "client" ⟨[], [], [], []⟩ 5
        (announce.portA ⟨none, none, some "out", some "out",
          false, false, false⟩)).1.globals.length := by
  decide

/-- Claim C9 (amended): announcements with missing required fields (a Port
without node-id or port-name, a Link without either endpoint) are dropped
completely silently: no object is published, no callback fires, and the
whole registry state including the identifier map is left unchanged, so no
slot is reserved for the dropped identifier; a later remove of an
identifier that is absent from the map is a no-op, and a later lookup
yields nothing, which keeps remove and lookup by id consistent without
any reservation. -/
theorem C9_registry_spec (cid : Nat) (cname : String) (st : registry_state)
    (id : Nat) (pp : port_props) (lp : link_props)
    (hp : pp.node_id = none ∨ pp.port_name = none)
    (hl : lp.output_port = none ∨ lp.input_port = none) :
    registry_event_global cid cname st id (announce.portA pp) = (st, []) ∧
    registry_event_global cid cname st id (announce.linkA lp) = (st, []) ∧
    (map_lookup st.globals id = none →
      registry_event_global_remove st id = (st, [])) := by
  refine ⟨?_, ?_, ?_⟩
  · rcases hft : string_to_type (pp.format_dsp.getD "other") with _ | tid0
    · simp [registry_event_global, hft]
    · rcases hp with hn | hpn
      · simp [registry_event_global, hft, hn]
      · rcases hn2 : pp.node_id with _ | nid
        · simp [registry_event_global, hft, hn2]
        · simp [registry_event_global, hft, hn2, hpn]
  · rcases hl with h | h
    · simp [registry_event_global, h]
    · rcases h2 : lp.output_port with _ | src
      · simp [registry_event_global, h2]
      · simp [registry_event_global, h2, h]
  · intro hmap
    simp [registry_event_global_remove, hmap]

/-- Claim C9 witness: a Port announcement missing the port name and a Link
announcement missing the input endpoint, both at id 7 against the empty
registry, leave the state unchanged with no events, and removing the
unknown id 7 is a no-op. -/
theorem C9_registry_spec_witness :
    registry_event_global 1 "client" ⟨[], [], [], []⟩ 7
        (announce.portA ⟨none, some 4, none, none, false, false, false⟩) =
      (⟨[], [], [], []⟩, []) ∧
    registry_event_global 1 "client" ⟨[], [], [], []⟩ 7
        (announce.linkA ⟨some 2, none⟩) = (⟨[], [], [], []⟩, []) ∧
    registry_event_global_remove ⟨[], [], [], []⟩ 7 = (⟨[], [], [], []⟩, []) := by
  have h := C9_registry_spec 1 "client" ⟨[], [], [], []⟩ 7
    ⟨none, some 4, none, none, false, false, false⟩ ⟨some 2, none⟩
    (Or.inr rfl) (Or.inr rfl)
  exact ⟨h.1, h.2.1, h.2.2 rfl⟩

end PipewireJack

namespace PipewireJack

/-!
Section: byte-accurate model of the MIDI port buffer.

The buffer is a flat byte array (little-endian, as on the target hosts):
struct midi_buffer occupies bytes 0 to 23 with magic at 0, buffer_size at
4, nframes at 8, write_pos at 12, event_count at 16 and lost_events at
20; event header k occupies the 8 bytes starting at 24 + 8k with time
(uint16) at +0, size (uint16) at +2 and the 4-byte union at +4 holding
either byte_offset (uint32) or the inline payload.  jack_midi_event_write
really memcpys the payload into the buffer bytes at the returned offset,
so the exact-fit aliasing of heap data and header is visible here.
Reads outside the byte array yield 0 (the C code would read or write wild
memory there).
-/

def readByte (mem : List Nat) (i : Nat) : Nat := mem.getD i 0

def writeByte (mem : List Nat) (i v : Nat) : List Nat := mem.set i v

def read_u16 (mem : List Nat) (i : Nat) : Nat :=
  readByte mem i + 256 * readByte mem (i + 1)

def write_u16 (mem : List Nat) (i v : Nat) : List Nat :=
  writeByte (writeByte mem i (v % 256)) (i + 1) (v / 256 % 256)

def read_u32 (mem : List Nat) (i : Nat) : Nat :=
  readByte mem i + 256 * readByte mem (i + 1) +
    65536 * readByte mem (i + 2) + 16777216 * readByte mem (i + 3)

def write_u32 (mem : List Nat) (i v : Nat) : List Nat :=
  writeByte (writeByte (writeByte (writeByte mem i (v % 256))
    (i + 1) (v / 256 % 256)) (i + 2) (v / 65536 % 256))
    (i + 3) (v / 16777216 % 256)

/-- memcpy of a byte list to consecutive offsets. -/
def memcpy (mem : List Nat) (i : Nat) : List Nat → List Nat
  | [] => mem
  | b :: rest => memcpy (writeByte mem i b) (i + 1) rest

def readBytes (mem : List Nat) (i n : Nat) : List Nat :=
  (List.range n).map fun j => readByte mem (i + j)

/-- Byte offset of event header k. -/
def evOff (k : Nat) : Nat := sizeof_midi_buffer + sizeof_midi_event * k

/-- Fresh cleared buffer of the given byte size and period length: all
bytes zero except the buffer_size and nframes fields (the magic field is
not used by the modelled operations). -/
def initMidiMem (bufferSize nframes : Nat) : List Nat :=
  write_u32 (write_u32 (List.replicate bufferSize 0) 4 bufferSize) 8 nframes

/-- jack_midi_max_event_size on the byte representation. -/
def jack_midi_max_event_size_mem (mem : List Nat) : Nat :=
  let buffer_size := read_u32 mem 4
  let used_size := sizeof_midi_buffer + read_u32 mem 12 +
    (read_u32 mem 16 + 1) * sizeof_midi_event
  if used_size > buffer_size then 0
  else if buffer_size - used_size < MIDI_INLINE_MAX then MIDI_INLINE_MAX
  else buffer_size - used_size

/-- jack_midi_event_reserve on the byte representation; returns the byte
offset the C function returns as a pointer.  All struct fields are read
before any write; the header writes at evOff never alias the struct
fields. -/
def jack_midi_event_reserve_mem (mem : List Nat) (time data_size : Nat) :
    Option Nat × List Nat :=
  let buffer_size := read_u32 mem 4
  let nframes := read_u32 mem 8
  let count := read_u32 mem 16
  if time ≥ nframes then
    (none, write_u32 mem 20 (read_u32 mem 20 + 1))
  else if count ≠ 0 ∧ time < read_u16 mem (evOff (count - 1)) then
    (none, write_u32 mem 20 (read_u32 mem 20 + 1))
  else if data_size = 0 then
    (none, write_u32 mem 20 (read_u32 mem 20 + 1))
  else if jack_midi_max_event_size_mem mem < data_size then
    (none, write_u32 mem 20 (read_u32 mem 20 + 1))
  else
    let mem1 := write_u16 mem (evOff count) time
    let mem2 := write_u16 mem1 (evOff count + 2) data_size
    if data_size ≤ MIDI_INLINE_MAX then
      (some (evOff count + 4), write_u32 mem2 16 (count + 1))
    else
      let wp := read_u32 mem 12 + data_size
      let off := buffer_size - 1 - wp
      let mem3 := write_u32 mem2 12 wp
      let mem4 := write_u32 mem3 (evOff count + 4) off
      (some off, write_u32 mem4 16 (count + 1))

/-- jack_midi_event_write on the byte representation: the memcpy lands in
the buffer bytes at the reserved offset, aliasing and all. -/
def jack_midi_event_write_mem (mem : List Nat) (time : Nat)
    (data : List Nat) : Int × List Nat :=
  match jack_midi_event_reserve_mem mem time data.length with
  | (some res, mem2) => (0, memcpy mem2 res data)
  | (none, mem2) => (ENOBUFS, mem2)

/-- Data pointer of event k as computed by midi_event_data: inline events
point into the header union, heap events follow the stored byte_offset. -/
def midi_event_data_off (mem : List Nat) (k : Nat) : Nat :=
  if read_u16 mem (evOff k + 2) ≤ MIDI_INLINE_MAX then evOff k + 4
  else read_u32 mem (evOff k + 4)

/-- jack_midi_event_get on the byte representation: time, size and the
payload bytes read through the data pointer. -/
def jack_midi_event_get_mem (mem : List Nat) (k : Nat) :
    Nat × Nat × List Nat :=
  let size := read_u16 mem (evOff k + 2)
  (read_u16 mem (evOff k), size,
    readBytes mem (midi_event_data_off mem k) size)

/-- convert_from_midi on the byte representation. -/
def convert_from_midi_mem (mem : List Nat) : List spa_pod_control :=
  (List.range (read_u32 mem 16)).map fun k =>
    { offset := (jack_midi_event_get_mem mem k).1,
      ctype := SPA_CONTROL_Midi,
      bytes := (jack_midi_event_get_mem mem k).2.2 }

/-- convert_to_midi on the byte representation: the same merge loop as
convert_to_midi, writing through jack_midi_event_write_mem. -/
def convert_to_midi_mem (seqs : List (List spa_pod_control))
    (mem : List Nat) : List Nat :=
  match h : pickStep seqs with
  | none => mem
  | some (c, seqs2) =>
    convert_to_midi_mem seqs2
      (if c.ctype = SPA_CONTROL_Midi then
        (jack_midi_event_write_mem mem c.offset c.bytes).2
      else mem)
termination_by totalLen seqs
decreasing_by
  have := pickStep_totalLen seqs c seqs2 h
  omega

theorem convert_to_midi_mem_none {seqs : List (List spa_pod_control)}
    (h : pickStep seqs = none) (mem : List Nat) :
    convert_to_midi_mem seqs mem = mem := by
  rw [convert_to_midi_mem, h]

theorem convert_to_midi_mem_some {seqs : List (List spa_pod_control)}
    {c : spa_pod_control} {seqs2 : List (List spa_pod_control)}
    (h : pickStep seqs = some (c, seqs2)) (mem : List Nat) :
    convert_to_midi_mem seqs mem =
      convert_to_midi_mem seqs2
        (if c.ctype = SPA_CONTROL_Midi then
          (jack_midi_event_write_mem mem c.offset c.bytes).2
        else mem) := by
  rw [convert_to_midi_mem, h]

end PipewireJack

namespace PipewireJack

/-- Claim C4: evaluation of the byte-accurate codec at the claimed inputs.
First, the example of the claim itself works: a buffer holding the events
[(t=0,sz=3),(t=5,sz=2)] (both inline) encodes to the wire sequence
[(0,[1,2,3]),(5,[4,5])] and decoding that sequence into a fresh cleared
buffer of the same size rebuilds the byte-identical buffer, so the
round-trip intent holds away from the exact-fit corner.  Second, the
failing input: on a cleared 42-byte buffer a loss-free 10-byte heap write
at time 0 (payload starting with byte 9, exactly filling the remaining
capacity) succeeds, but its memcpy overwrites the high byte of the very
byte_offset field it was placed through: the stored byte_offset reads
back as 150994975, far beyond the 42-byte buffer, so the data pointer of
jack_midi_event_get is out of bounds (wild memory in the C code; reads
give 0 here), the payload can no longer be read back, and encoding no
longer emits the written event, so the round trip cannot yield an
identical event list. -/
theorem C4_exact_fit_roundtrip :
    (convert_from_midi_mem
        (jack_midi_event_write_mem
          ((jack_midi_event_write_mem (initMidiMem 64 16) 0 [1, 2, 3]).2)
          5 [4, 5]).2 =
      [⟨0, SPA_CONTROL_Midi, [1, 2, 3]⟩, ⟨5, SPA_CONTROL_Midi, [4, 5]⟩]) ∧
    (convert_to_midi_mem
        [[⟨0, SPA_CONTROL_Midi, [1, 2, 3]⟩, ⟨5, SPA_CONTROL_Midi, [4, 5]⟩]]
        (initMidiMem 64 16) =
      (jack_midi_event_write_mem
        ((jack_midi_event_write_mem (initMidiMem 64 16) 0 [1, 2, 3]).2)
        5 [4, 5]).2) ∧
    ((jack_midi_event_write_mem (initMidiMem 42 1) 0
        [9, 1, 2, 3, 4, 5, 6, 7, 8, 9]).1 = 0 ∧
      read_u32 (jack_midi_event_write_mem (initMidiMem 42 1) 0
        [9, 1, 2, 3, 4, 5, 6, 7, 8, 9]).2 20 = 0 ∧
      read_u32 (jack_midi_event_write_mem (initMidiMem 42 1) 0
        [9, 1, 2, 3, 4, 5, 6, 7, 8, 9]).2 (evOff 0 + 4) = 150994975 ∧
      42 < 150994975 ∧
      (jack_midi_event_get_mem (jack_midi_event_write_mem (initMidiMem 42 1) 0
        [9, 1, 2, 3, 4, 5, 6, 7, 8, 9]).2 0).2.2 ≠
        [9, 1, 2, 3, 4, 5, 6, 7, 8, 9] ∧
      convert_from_midi_mem (jack_midi_event_write_mem (initMidiMem 42 1) 0
        [9, 1, 2, 3, 4, 5, 6, 7, 8, 9]).2 ≠
        [⟨0, SPA_CONTROL_Midi, [9, 1, 2, 3, 4, 5, 6, 7, 8, 9]⟩]) := by
  refine ⟨by decide, ?_, by decide⟩
  have h1 : pickStep
      [[⟨0, SPA_CONTROL_Midi, [1, 2, 3]⟩, ⟨5, SPA_CONTROL_Midi, [4, 5]⟩]] =
      some (⟨0, SPA_CONTROL_Midi, [1, 2, 3]⟩,
        [[⟨5, SPA_CONTROL_Midi, [4, 5]⟩]]) := by decide
  have h2 : pickStep [[⟨5, SPA_CONTROL_Midi, [4, 5]⟩]] =
      some (⟨5, SPA_CONTROL_Midi, [4, 5]⟩, [[]]) := by decide
  have h3 : pickStep [([] : List spa_pod_control)] = none := by decide
  rw [convert_to_midi_mem_some h1, convert_to_midi_mem_some h2,
    convert_to_midi_mem_none h3]
  decide

end PipewireJack
